import Mathlib

/-!
Verification of the backtest-crypto execution/accounting engine
(`src/core/backtest_engine.py`) and its analytics layer
(`src/core/performance.py`).

The engine is shallowly embedded over exact rationals (`ℚ`): the Python
floats become `ℚ`, bar timestamps become natural numbers (minutes), and the
mutable engine attributes become the fields of an explicit `EngineState`
record threaded through a per-bar step function.

Naming note: the source's `*_ratio` variables are rendered with the suffix
`Rat` (for "ratio as a rational"), e.g. `current_position_ratio`
becomes `currentPositionRat`.
-/

namespace BacktestCrypto

/-- One open buy record appended by `_process_buy_trade`
(`self.open_positions` list entries: quantity, buy_price, buy_timestamp,
commission).  The `quantity` field is the remaining quantity: it is
decremented in place on a partial match. -/
structure Lot where
  quantity : ℚ
  buyPrice : ℚ
  buyTimestamp : ℕ
  commission : ℚ
  deriving Repr, DecidableEq

/-- One realized-P&L record appended by `_process_sell_trade`
(`self.closed_positions` entries). -/
structure ClosedPosition where
  quantity : ℚ
  buyPrice : ℚ
  sellPrice : ℚ
  buyTimestamp : ℕ
  sellTimestamp : ℕ
  grossProfit : ℚ
  commission : ℚ
  netProfit : ℚ
  deriving Repr, DecidableEq

/-- The `'action'` key of a trade record: `'BUY'` or `'SELL'`. -/
inductive TradeAction where
  | buy
  | sell
  deriving Repr, DecidableEq

/-- One entry of `self.trades` (the Python dict keys `timestamp`, `action`,
`price`, `position_ratio`, `amount`, `commission`, `capital_before`,
`capital_after`; the sell-only `closed_positions` alias is not needed by
any claim and is omitted). -/
structure Trade where
  timestamp : ℕ
  action : TradeAction
  price : ℚ
  positionRat : ℚ
  amount : ℚ
  commission : ℚ
  capitalBefore : ℚ
  capitalAfter : ℚ
  deriving Repr, DecidableEq

/-- One bar of market data as consumed by `run_backtest`: only `row.Close`
and `row.Open_time` are read by the loop. Timestamps are minutes. -/
structure Bar where
  close : ℚ
  openTime : ℕ
  deriving Repr, DecidableEq

/-- The engine's mutable attributes during `run_backtest`:
`current_capital`, `current_position_ratio`, `current_position`,
`self.trades`, `self.open_positions`, `self.closed_positions`,
`self.portfolio_values`, `self.positions`. -/
structure EngineState where
  currentCapital : ℚ
  currentPositionRat : ℚ
  currentPosition : ℚ
  trades : List Trade
  openPositions : List Lot
  closedPositions : List ClosedPosition
  portfolioValues : List ℚ
  positions : List ℚ
  deriving Repr, DecidableEq

/-- The engine state right after the initialization block of
`run_backtest` (lines 131-142): capital = initial capital, zero position,
zero tracked position ratio, empty logs, one pre-trade portfolio-value
sample and one pre-trade position sample. -/
def initState (initialCapital : ℚ) : EngineState :=
  { currentCapital := initialCapital
    currentPositionRat := 0
    currentPosition := 0
    trades := []
    openPositions := []
    closedPositions := []
    portfolioValues := [initialCapital]
    positions := [0] }

/-- `target_position_ratio = min(1.0, current_position_ratio + signal)`
(BUY branch, line 156). -/
def buyTargetRat (r signal : ℚ) : ℚ := min 1 (r + signal)

/-- `additional_capital_needed = additional_position_ratio *
current_capital / (1 - current_position_ratio)` (line 161). -/
def additionalCapitalNeeded (capital r add : ℚ) : ℚ := add * capital / (1 - r)

/-- `target_position_ratio = max(0.0, current_position_ratio -
abs(signal))` (SELL branch, lines 193-194). -/
def sellTargetRat (r signal : ℚ) : ℚ := max 0 (r - |signal|)

/-- `current_assest = current_capital + current_position * current_price`
(line 195). -/
def currentAssets (capital pos price : ℚ) : ℚ := capital + pos * price

/-- `real_position_ratio = (current_position * current_price) /
current_assest` (line 196). -/
def realPositionRat (capital pos price : ℚ) : ℚ :=
  pos * price / currentAssets capital pos price

/-- The FIFO matching loop of `_process_sell_trade` (lines 273-309):
given the sell price, sell timestamp, total sell commission and total sell
quantity, it walks the open-lot queue front-first with the running
`remaining_sell`, and returns the remaining queue, the emitted closed
positions (in emission order) and the leftover `remaining_sell` at loop
exit. -/
def sellLoop (sellPrice : ℚ) (timestamp : ℕ) (sellCommission sellQuantity : ℚ) :
    List Lot → ℚ → List Lot × List ClosedPosition × ℚ
  | [], remaining => ([], [], remaining)
  | lot :: rest, remaining =>
    if 0 < remaining then
      if lot.quantity ≤ remaining then
        let gross := (sellPrice - lot.buyPrice) * lot.quantity
        let comm := lot.commission * (lot.quantity / lot.quantity) +
          sellCommission * (lot.quantity / sellQuantity)
        let cp : ClosedPosition :=
          ⟨lot.quantity, lot.buyPrice, sellPrice, lot.buyTimestamp, timestamp,
            gross, comm, gross - comm⟩
        let r := sellLoop sellPrice timestamp sellCommission sellQuantity rest
          (remaining - lot.quantity)
        (r.1, cp :: r.2.1, r.2.2)
      else
        let gross := (sellPrice - lot.buyPrice) * remaining
        let comm := lot.commission * (remaining / lot.quantity) +
          sellCommission * (remaining / sellQuantity)
        let cp : ClosedPosition :=
          ⟨remaining, lot.buyPrice, sellPrice, lot.buyTimestamp, timestamp,
            gross, comm, gross - comm⟩
        ({ lot with quantity := lot.quantity - remaining } :: rest, [cp], 0)
    else (lot :: rest, [], remaining)

/-- The trading part of one `run_backtest` loop iteration (lines 153-227):
the BUY branch (signal > 0) and the SELL branch (signal < 0). -/
def tradePhase (rate : ℚ) (st : EngineState) (signal price : ℚ)
    (timestamp : ℕ) : EngineState :=
  if 0 < signal then
      let target := buyTargetRat st.currentPositionRat signal
      let add := target - st.currentPositionRat
      if 0 < add then
        let needed := additionalCapitalNeeded st.currentCapital st.currentPositionRat add
        if needed ≤ st.currentCapital then
          let commission := needed * rate
          let actualInvestment := (needed - commission) / price
          { st with
            currentCapital := st.currentCapital - needed
            currentPositionRat := target
            currentPosition := st.currentPosition + actualInvestment
            openPositions := st.openPositions ++
              [⟨actualInvestment, price, timestamp, commission⟩]
            trades := st.trades ++
              [⟨timestamp, TradeAction.buy, price, add, actualInvestment,
                commission, st.currentCapital, st.currentCapital - needed⟩] }
        else st
      else st
    else if signal < 0 then
      let target := sellTargetRat st.currentPositionRat signal
      let assets := currentAssets st.currentCapital st.currentPosition price
      let realRat := realPositionRat st.currentCapital st.currentPosition price
      if target < realRat then
        let targetPosition := target * assets / price
        let sellPosition := st.currentPosition - targetPosition
        let sellValue := sellPosition * price
        let commission := sellValue * rate
        let netSellValue := sellValue - commission
        let matched := sellLoop price timestamp commission sellPosition
          st.openPositions sellPosition
        { st with
          currentCapital := st.currentCapital + netSellValue
          currentPositionRat := target
          currentPosition := st.currentPosition - sellPosition
          openPositions := matched.1
          closedPositions := st.closedPositions ++ matched.2.1
          trades := st.trades ++
            [⟨timestamp, TradeAction.sell, price, st.currentPositionRat - target,
              sellValue, commission, st.currentCapital,
              st.currentCapital + netSellValue⟩] }
      else st
    else st

/-- One full iteration of the `run_backtest` loop body (lines 150-241):
the trade phase followed by the unconditional per-bar portfolio-value and
position sample (lines 229-241).  The source's
`if self.portfolio_values == 0` guard compares a list with an integer and
is never true, so it has no effect and is omitted. -/
def stepBar (rate : ℚ) (st : EngineState) (signal price : ℚ) (timestamp : ℕ) :
    EngineState :=
  let st' := tradePhase rate st signal price timestamp
  let pv := if 0 < st'.currentPositionRat then
      st'.currentCapital + st'.currentPosition * price
    else st'.currentCapital
  { st' with
    portfolioValues := st'.portfolioValues ++ [pv]
    positions := st'.positions ++ [st'.currentPositionRat] }

/-- The whole `run_backtest` loop over the zipped (signal, bar) sequence. -/
def runBars (rate : ℚ) (st : EngineState) : List (ℚ × Bar) → EngineState
  | [] => st
  | (s, b) :: rest => runBars rate (stepBar rate st s b.close b.openTime) rest

/-- The two fatal precondition failures of `run_backtest`: `self.data is
None` (line 125, the spec's `ConfigurationError`) and a signal/bar length
mismatch (line 128, the spec's `LengthMismatchError`). -/
inductive BacktestError where
  | configurationError
  | lengthMismatchError
  deriving Repr, DecidableEq

/-- `run_backtest` with `percentage = 100` (the default, under which the
truncation at line 146 keeps everything): the two precondition checks run
before any result attribute is reassigned, so on failure the engine's
result state is the caller's prior state, returned untouched next to
the error; on success the result state is rebuilt from `initState`. -/
def runBacktest (data? : Option (List Bar)) (signals : List ℚ)
    (initialCapital rate : ℚ) (prior : EngineState) :
    EngineState × Option BacktestError :=
  match data? with
  | none => (prior, some BacktestError.configurationError)
  | some bars =>
    if signals.length ≠ bars.length then
      (prior, some BacktestError.lengthMismatchError)
    else
      (runBars rate (initState initialCapital) (signals.zip bars), none)

/-- Final capital of a run: the last equity-curve sample
(`self.equity_curve.iloc[-1]`, which is the last entry of
`self.portfolio_values`). -/
def finalCapital (rate initialCapital : ℚ) (ps : List (ℚ × Bar)) : ℚ :=
  (runBars rate (initState initialCapital) ps).portfolioValues.getLastD 0

/-- Total remaining quantity over the open-lot queue. -/
def lotSum (lots : List Lot) : ℚ := (lots.map Lot.quantity).sum

/-- A reachable post-buy engine state used to instantiate
`sell_branch_spec`: cash 500, tracked ratio 1/2, position 5, one open lot
of 5 units bought at 100. -/
def sellInstanceState : EngineState :=
  { currentCapital := 500
    currentPositionRat := 1/2
    currentPosition := 5
    trades := []
    openPositions := [⟨5, 100, 0, 0⟩]
    closedPositions := []
    portfolioValues := [1000, 1000]
    positions := [0, 1/2] }

/-- `equity_curve.pct_change().dropna()` (performance.py line 68): the
list of successive percentage changes of the equity curve. -/
def pctChange : List ℚ → List ℚ
  | [] => []
  | [_] => []
  | x :: y :: rest => (y - x) / x :: pctChange (y :: rest)

/-- Arithmetic mean of a rational list (0 for the empty list, since
dividing by the length 0 yields 0 in `ℚ`). -/
def meanQ (xs : List ℚ) : ℚ := xs.sum / (xs.length : ℚ)

/-- Sample variance with one delta degree of freedom: the square of the
pandas `Series.std()` default used at performance.py line 86. -/
def sampleVarQ (xs : List ℚ) : ℚ :=
  if xs.length ≤ 1 then 0
  else (xs.map (fun x => (x - meanQ xs) ^ 2)).sum / ((xs.length : ℚ) - 1)

/-- `total_days = time_span.total_seconds() / (24 * 3600)` (performance.py
lines 73-79) for an equity-curve index given in minutes. -/
def totalDaysQ (times : List ℕ) : ℚ :=
  ((times.getLastD 0 : ℚ) - (times.headD 0 : ℚ)) * 60 / 86400

/-- The square of the source's annualized volatility (performance.py
lines 71-96): when the curve has more than one sample and the time span
is positive, `annual_volatility = daily_returns.std() * np.sqrt(365*24*60)`
— the scaling constant 365×24×60 = 525600 is hardcoded and does not read
the bar spacing; otherwise 0.  Squaring removes the irrational square
root while preserving equality and order of the nonnegative
volatilities. -/
def annualVolatilitySq (times : List ℕ) (equity : List ℚ) : ℚ :=
  if 1 < equity.length ∧ 0 < totalDaysQ times then
    sampleVarQ (pctChange equity) * (365 * 24 * 60)
  else 0

/-- Modelled from the spec: the spec (§4.4 and §9 item 3) requires
`annual_volatility = stdev(per_bar_returns) × sqrt(bars_per_year)` with
`bars_per_year` derived from the bar sequence's actual inferred bar
spacing; the source has no such derivation (performance.py hardcodes
`sqrt(365*24*60)`).  Following the spec's words, a bar spacing of `m`
minutes (inferred from the first two index entries) gives
`bars_per_year = 525600 / m`.  Squared form, as above. -/
def annualVolatilitySqSpecModel (times : List ℕ) (equity : List ℚ) : ℚ :=
  if 1 < equity.length ∧ 0 < totalDaysQ times then
    sampleVarQ (pctChange equity) *
      (525600 / ((times.getD 1 0 : ℚ) - (times.headD 0 : ℚ)))
  else 0

/-- A fixed bar/signal sequence on which final capital increases with the
commission rate: a buy of half the capital at price 100, seven sell
signals of 1/14 each (small enough that a 1/4 commission rate makes the
mark-to-market gate skip every one of them while a zero rate executes
them all, dragging the zero-rate tracked ratio down to 0), a second half
buy (all-in only for the high-rate run, whose tracked ratio stayed at
1/2), and a final bar at price 300. -/
def c9Bars : List (ℚ × Bar) :=
  [((1:ℚ)/2, (⟨100, 0⟩ : Bar))] ++
    List.replicate 7 ((-(1:ℚ)/14), (⟨100, 1⟩ : Bar)) ++
    [((1:ℚ)/2, (⟨100, 8⟩ : Bar)), ((0:ℚ), (⟨300, 9⟩ : Bar))]

/-- The run invariant of the engine state: nonnegative cash, position and
tracked ratio, tracked ratio at most 1, cash and position not both zero,
nonnegative lot quantities, and the lot-sum identity
`Σ lot.quantity = current_position`. -/
def Inv (st : EngineState) : Prop :=
  0 ≤ st.currentCapital ∧ 0 ≤ st.currentPosition ∧
  0 ≤ st.currentPositionRat ∧ st.currentPositionRat ≤ 1 ∧
  (0 < st.currentCapital ∨ 0 < st.currentPosition) ∧
  (∀ l ∈ st.openPositions, 0 ≤ l.quantity) ∧
  lotSum st.openPositions = st.currentPosition

/-- Coupling of two runs of the same bar/signal sequence under commission
rates `r1 ≤ r2` when no sell signal occurs: equal cash, equal tracked
ratio, the higher-rate run holding at most the lower-rate position, and
the one-sided bounds the preservation proof needs. -/
def Coupled (s1 s2 : EngineState) : Prop :=
  s1.currentCapital = s2.currentCapital ∧
  s1.currentPositionRat = s2.currentPositionRat ∧
  s2.currentPosition ≤ s1.currentPosition ∧
  0 ≤ s1.currentCapital ∧ 0 ≤ s2.currentPosition ∧
  0 ≤ s1.currentPositionRat ∧ s1.currentPositionRat ≤ 1

/-- The last equity-curve sample of a state. -/
def lastEquity (st : EngineState) : ℚ := st.portfolioValues.getLastD 0

lemma stepBar_currentCapital (rate signal price : ℚ) (t : ℕ) (st : EngineState) :
    (stepBar rate st signal price t).currentCapital =
      (tradePhase rate st signal price t).currentCapital := rfl

lemma stepBar_currentPositionRat (rate signal price : ℚ) (t : ℕ) (st : EngineState) :
    (stepBar rate st signal price t).currentPositionRat =
      (tradePhase rate st signal price t).currentPositionRat := rfl

lemma stepBar_currentPosition (rate signal price : ℚ) (t : ℕ) (st : EngineState) :
    (stepBar rate st signal price t).currentPosition =
      (tradePhase rate st signal price t).currentPosition := rfl

lemma stepBar_trades (rate signal price : ℚ) (t : ℕ) (st : EngineState) :
    (stepBar rate st signal price t).trades =
      (tradePhase rate st signal price t).trades := rfl

lemma stepBar_openPositions (rate signal price : ℚ) (t : ℕ) (st : EngineState) :
    (stepBar rate st signal price t).openPositions =
      (tradePhase rate st signal price t).openPositions := rfl

lemma stepBar_closedPositions (rate signal price : ℚ) (t : ℕ) (st : EngineState) :
    (stepBar rate st signal price t).closedPositions =
      (tradePhase rate st signal price t).closedPositions := rfl

lemma stepBar_portfolioValues (rate signal price : ℚ) (t : ℕ) (st : EngineState) :
    (stepBar rate st signal price t).portfolioValues =
      (tradePhase rate st signal price t).portfolioValues ++
        [if 0 < (tradePhase rate st signal price t).currentPositionRat then
          (tradePhase rate st signal price t).currentCapital +
            (tradePhase rate st signal price t).currentPosition * price
        else (tradePhase rate st signal price t).currentCapital] := rfl

lemma tradePhase_buy_exec (rate signal price : ℚ) (timestamp : ℕ)
    (st : EngineState) (target needed : ℚ) (hsig : 0 < signal)
    (htarget : target = buyTargetRat st.currentPositionRat signal)
    (hneeded : needed = additionalCapitalNeeded st.currentCapital
      st.currentPositionRat (target - st.currentPositionRat))
    (hadd : 0 < target - st.currentPositionRat)
    (hle : needed ≤ st.currentCapital) :
    tradePhase rate st signal price timestamp =
      { st with
        currentCapital := st.currentCapital - needed
        currentPositionRat := target
        currentPosition := st.currentPosition + (needed - needed * rate) / price
        openPositions := st.openPositions ++
          [⟨(needed - needed * rate) / price, price, timestamp, needed * rate⟩]
        trades := st.trades ++
          [⟨timestamp, TradeAction.buy, price, target - st.currentPositionRat,
            (needed - needed * rate) / price, needed * rate, st.currentCapital,
            st.currentCapital - needed⟩] } := by
  subst hneeded
  subst htarget
  simp [tradePhase, hsig, hadd, hle]

lemma tradePhase_buy_skip (rate signal price : ℚ) (timestamp : ℕ)
    (st : EngineState) (hsig : 0 < signal)
    (hadd : 0 < buyTargetRat st.currentPositionRat signal - st.currentPositionRat)
    (hgt : st.currentCapital < additionalCapitalNeeded st.currentCapital
      st.currentPositionRat
      (buyTargetRat st.currentPositionRat signal - st.currentPositionRat)) :
    tradePhase rate st signal price timestamp = st := by
  simp [tradePhase, hsig, hadd, not_le.mpr hgt]

lemma tradePhase_buy_noadd (rate signal price : ℚ) (timestamp : ℕ)
    (st : EngineState) (hsig : 0 < signal)
    (hnadd : ¬ 0 < buyTargetRat st.currentPositionRat signal -
      st.currentPositionRat) :
    tradePhase rate st signal price timestamp = st := by
  simp [tradePhase, hsig, hnadd]

lemma tradePhase_sell_exec (rate signal price : ℚ) (timestamp : ℕ)
    (st : EngineState) (target sellPos : ℚ) (hsig : signal < 0)
    (htarget : target = sellTargetRat st.currentPositionRat signal)
    (hsell : sellPos = st.currentPosition -
      target * currentAssets st.currentCapital st.currentPosition price / price)
    (hgate : target < realPositionRat st.currentCapital st.currentPosition price) :
    tradePhase rate st signal price timestamp =
      { st with
        currentCapital := st.currentCapital +
          (sellPos * price - sellPos * price * rate)
        currentPositionRat := target
        currentPosition := st.currentPosition - sellPos
        openPositions := (sellLoop price timestamp (sellPos * price * rate)
          sellPos st.openPositions sellPos).1
        closedPositions := st.closedPositions ++
          (sellLoop price timestamp (sellPos * price * rate) sellPos
            st.openPositions sellPos).2.1
        trades := st.trades ++
          [⟨timestamp, TradeAction.sell, price, st.currentPositionRat - target,
            sellPos * price, sellPos * price * rate, st.currentCapital,
            st.currentCapital + (sellPos * price - sellPos * price * rate)⟩] } := by
  subst hsell
  subst htarget
  have hnotbuy : ¬ 0 < signal := not_lt.mpr hsig.le
  simp [tradePhase, hnotbuy, hsig, hgate]

lemma tradePhase_sell_skip (rate signal price : ℚ) (timestamp : ℕ)
    (st : EngineState) (hsig : signal < 0)
    (hngate : realPositionRat st.currentCapital st.currentPosition price ≤
      sellTargetRat st.currentPositionRat signal) :
    tradePhase rate st signal price timestamp = st := by
  have hnotbuy : ¬ 0 < signal := not_lt.mpr hsig.le
  simp [tradePhase, hnotbuy, hsig, not_lt.mpr hngate]

lemma tradePhase_nosignal (rate signal price : ℚ) (timestamp : ℕ)
    (st : EngineState) (h1 : ¬ 0 < signal) (h2 : ¬ signal < 0) :
    tradePhase rate st signal price timestamp = st := by
  simp [tradePhase, h1, h2]


/-- C1. BUY branch of `run_backtest`: for a bar with signal > 0 and
positive additional ratio, if the required capital is at most the current
cash the engine charges `commission = required_capital * rate`, buys
`(required_capital - commission) / price`, decreases cash by the required
capital, sets the tracked ratio to the target, and appends exactly one BUY
trade and one new lot; if the required capital exceeds cash the bar leaves
the portfolio state unchanged and records no trade and no lot. -/
theorem buy_branch_spec (rate signal price : ℚ) (timestamp : ℕ)
    (st : EngineState) (target add needed : ℚ)
    (hsig : 0 < signal)
    (htarget : target = buyTargetRat st.currentPositionRat signal)
    (hadd : add = target - st.currentPositionRat)
    (hneeded : needed =
      additionalCapitalNeeded st.currentCapital st.currentPositionRat add)
    (hpos : 0 < add) :
    (needed ≤ st.currentCapital →
      (stepBar rate st signal price timestamp).currentCapital =
          st.currentCapital - needed ∧
      (stepBar rate st signal price timestamp).currentPositionRat = target ∧
      (stepBar rate st signal price timestamp).currentPosition =
          st.currentPosition + (needed - needed * rate) / price ∧
      (stepBar rate st signal price timestamp).trades =
          st.trades ++ [⟨timestamp, TradeAction.buy, price, add,
            (needed - needed * rate) / price, needed * rate,
            st.currentCapital, st.currentCapital - needed⟩] ∧
      (stepBar rate st signal price timestamp).openPositions =
          st.openPositions ++ [⟨(needed - needed * rate) / price, price,
            timestamp, needed * rate⟩] ∧
      (stepBar rate st signal price timestamp).closedPositions =
          st.closedPositions) ∧
    (st.currentCapital < needed →
      (stepBar rate st signal price timestamp).currentCapital =
          st.currentCapital ∧
      (stepBar rate st signal price timestamp).currentPositionRat =
          st.currentPositionRat ∧
      (stepBar rate st signal price timestamp).currentPosition =
          st.currentPosition ∧
      (stepBar rate st signal price timestamp).trades = st.trades ∧
      (stepBar rate st signal price timestamp).openPositions =
          st.openPositions ∧
      (stepBar rate st signal price timestamp).closedPositions =
          st.closedPositions) := by
  subst hneeded
  subst hadd
  subst htarget
  constructor
  · intro hle
    simp [stepBar, tradePhase, hsig, hpos, hle]
  · intro hgt
    simp [stepBar, tradePhase, hsig, hpos, not_le.mpr hgt]

/-- Witness for `buy_branch_spec`: capital 1000, rate 1/10, signal 1/2 at
price 100 executes a buy of required capital 500, commission 50, quantity
9/2. -/
theorem buy_branch_spec_instance :
    (stepBar (1/10) (initState 1000) (1/2) 100 0).currentCapital =
        (initState 1000).currentCapital - 500 ∧
    (stepBar (1/10) (initState 1000) (1/2) 100 0).currentPositionRat = 1/2 ∧
    (stepBar (1/10) (initState 1000) (1/2) 100 0).currentPosition =
        (initState 1000).currentPosition + (500 - 500 * (1/10)) / 100 ∧
    (stepBar (1/10) (initState 1000) (1/2) 100 0).trades =
        (initState 1000).trades ++ [⟨0, TradeAction.buy, 100, 1/2,
          (500 - 500 * (1/10)) / 100, 500 * (1/10),
          (initState 1000).currentCapital,
          (initState 1000).currentCapital - 500⟩] ∧
    (stepBar (1/10) (initState 1000) (1/2) 100 0).openPositions =
        (initState 1000).openPositions ++ [⟨(500 - 500 * (1/10)) / 100, 100,
          0, 500 * (1/10)⟩] ∧
    (stepBar (1/10) (initState 1000) (1/2) 100 0).closedPositions =
        (initState 1000).closedPositions :=
  (buy_branch_spec (1/10) (1/2) 100 0 (initState 1000) (1/2) (1/2) 500
    (by norm_num) (by norm_num [buyTargetRat, initState, min_def])
    (by norm_num [buyTargetRat, initState, min_def])
    (by norm_num [additionalCapitalNeeded, initState]) (by norm_num)).1
    (by norm_num [initState])

/-- C2. SELL branch of `run_backtest`: for a bar with signal < 0, the
trade executes exactly when the target ratio is below the mark-to-market
ratio; then the quantity sold is `position - target * assets / price`,
`commission = sell_value * rate`, cash grows by `sell_value - commission`,
the position shrinks by the sold quantity, the tracked ratio becomes the
target, one SELL trade is appended and matching is delegated to the FIFO
loop; when the gate fails the portfolio state is unchanged and no trade is
recorded. -/
theorem sell_branch_spec (rate signal price : ℚ) (timestamp : ℕ)
    (st : EngineState) (target assets realRat sellPos sellValue comm : ℚ)
    (hsig : signal < 0)
    (htarget : target = sellTargetRat st.currentPositionRat signal)
    (hassets : assets = currentAssets st.currentCapital st.currentPosition price)
    (hreal : realRat = realPositionRat st.currentCapital st.currentPosition price)
    (hsell : sellPos = st.currentPosition - target * assets / price)
    (hvalue : sellValue = sellPos * price)
    (hcomm : comm = sellValue * rate) :
    (target < realRat →
      (stepBar rate st signal price timestamp).currentCapital =
          st.currentCapital + (sellValue - comm) ∧
      (stepBar rate st signal price timestamp).currentPositionRat = target ∧
      (stepBar rate st signal price timestamp).currentPosition =
          st.currentPosition - sellPos ∧
      (stepBar rate st signal price timestamp).trades =
          st.trades ++ [⟨timestamp, TradeAction.sell, price,
            st.currentPositionRat - target, sellValue, comm,
            st.currentCapital, st.currentCapital + (sellValue - comm)⟩] ∧
      (stepBar rate st signal price timestamp).openPositions =
          (sellLoop price timestamp comm sellPos st.openPositions sellPos).1 ∧
      (stepBar rate st signal price timestamp).closedPositions =
          st.closedPositions ++
            (sellLoop price timestamp comm sellPos st.openPositions sellPos).2.1) ∧
    (realRat ≤ target →
      (stepBar rate st signal price timestamp).currentCapital =
          st.currentCapital ∧
      (stepBar rate st signal price timestamp).currentPositionRat =
          st.currentPositionRat ∧
      (stepBar rate st signal price timestamp).currentPosition =
          st.currentPosition ∧
      (stepBar rate st signal price timestamp).trades = st.trades ∧
      (stepBar rate st signal price timestamp).openPositions =
          st.openPositions ∧
      (stepBar rate st signal price timestamp).closedPositions =
          st.closedPositions) := by
  subst htarget
  subst hassets
  subst hreal
  subst hsell
  subst hvalue
  subst hcomm
  have hnotbuy : ¬ (0 < signal) := not_lt.mpr (le_of_lt hsig)
  constructor
  · intro hgate
    simp [stepBar, tradePhase, hnotbuy, hsig, hgate]
  · intro hgate
    simp [stepBar, tradePhase, hnotbuy, hsig, not_lt.mpr hgate]

/-- Witness for `sell_branch_spec`: from `sellInstanceState`, signal -1/2
at price 100 and rate 1/10 sells the whole 5-unit position for 500 with
commission 50. -/
theorem sell_branch_spec_instance :
    (stepBar (1/10) sellInstanceState (-(1/2)) 100 7).currentCapital =
        sellInstanceState.currentCapital + (500 - 50) ∧
    (stepBar (1/10) sellInstanceState (-(1/2)) 100 7).currentPositionRat = 0 ∧
    (stepBar (1/10) sellInstanceState (-(1/2)) 100 7).currentPosition =
        sellInstanceState.currentPosition - 5 ∧
    (stepBar (1/10) sellInstanceState (-(1/2)) 100 7).trades =
        sellInstanceState.trades ++ [⟨7, TradeAction.sell, 100,
          sellInstanceState.currentPositionRat - 0, 500, 50,
          sellInstanceState.currentCapital,
          sellInstanceState.currentCapital + (500 - 50)⟩] ∧
    (stepBar (1/10) sellInstanceState (-(1/2)) 100 7).openPositions =
        (sellLoop 100 7 50 5 sellInstanceState.openPositions 5).1 ∧
    (stepBar (1/10) sellInstanceState (-(1/2)) 100 7).closedPositions =
        sellInstanceState.closedPositions ++
          (sellLoop 100 7 50 5 sellInstanceState.openPositions 5).2.1 :=
  (sell_branch_spec (1/10) (-(1/2)) 100 7 sellInstanceState 0 1000 (1/2) 5
    500 50 (by norm_num)
    (by norm_num [sellTargetRat, sellInstanceState, max_def, abs_of_nonneg])
    (by norm_num [currentAssets, sellInstanceState])
    (by norm_num [realPositionRat, currentAssets, sellInstanceState])
    (by norm_num [sellInstanceState]) (by norm_num) (by norm_num)).1
    (by norm_num)

/-- C7. FIFO ordering of the matching loop: after two open lots of 1 unit
at entry prices 100 then 200 (any commissions), a sell of 1 unit consumes
the lot bought at 100 — the single emitted closed position has buy price
100 — and leaves the 200-priced lot open, whatever the sell price and
sell commission. -/
theorem fifo_oldest_lot_first (c1 c2 sellComm p : ℚ) (t1 t2 t : ℕ) :
    (sellLoop p t sellComm 1 [⟨1, 100, t1, c1⟩, ⟨1, 200, t2, c2⟩] 1).1 =
      [⟨1, 200, t2, c2⟩] ∧
    ((sellLoop p t sellComm 1 [⟨1, 100, t1, c1⟩, ⟨1, 200, t2, c2⟩] 1).2.1).map
      ClosedPosition.buyPrice = [100] := by
  norm_num [sellLoop]

/-- C8. Fatal preconditions of `run_backtest`: invoking it with no market
data fails with the configuration error, and invoking it with mismatched
signal/bar lengths fails with the length-mismatch error; both failures
happen before any simulation step, so the engine's prior result state is
returned untouched. -/
theorem run_backtest_preconditions (signals : List ℚ) (c rate : ℚ)
    (prior : EngineState) :
    runBacktest none signals c rate prior =
      (prior, some BacktestError.configurationError) ∧
    (∀ bars : List Bar, signals.length ≠ bars.length →
      runBacktest (some bars) signals c rate prior =
        (prior, some BacktestError.lengthMismatchError)) := by
  refine ⟨rfl, ?_⟩
  intro bars h
  simp [runBacktest, h]

/-- Witness for `run_backtest_preconditions`: one signal against missing
data, and one signal against an empty bar list. -/
theorem run_backtest_preconditions_instance :
    runBacktest none [1] 1000 (1/1000) (initState 1000) =
      ((initState 1000), some BacktestError.configurationError) ∧
    runBacktest (some []) [1] 1000 (1/1000) (initState 1000) =
      ((initState 1000), some BacktestError.lengthMismatchError) := by
  have h := run_backtest_preconditions [1] 1000 (1/1000) (initState 1000)
  exact ⟨h.1, h.2 [] (by decide)⟩

/-- C3 (counterexample): a lot opened with 1 unit and entry commission 10,
sold off in two half-unit sells (sell commission 0 both times, so each
closed position's `commission` field is exactly the buy-commission share),
yields fragments carrying buy-commission shares 5 and then 10 — the
second share divides by the lot's *remaining* quantity 1/2, not its
original quantity 1 — so the shares over the fragments of this one lot
sum to 15, exceeding its entry commission 10. -/
theorem lot_fragment_commissions_exceed_entry :
    ((sellLoop 100 1 0 (1/2) [⟨1, 100, 0, 10⟩] (1/2)).2.1 ++
        (sellLoop 100 2 0 (1/2)
          (sellLoop 100 1 0 (1/2) [⟨1, 100, 0, 10⟩] (1/2)).1 (1/2)).2.1).map
        ClosedPosition.commission = [5, 10] ∧
    ¬ ((((sellLoop 100 1 0 (1/2) [⟨1, 100, 0, 10⟩] (1/2)).2.1 ++
        (sellLoop 100 2 0 (1/2)
          (sellLoop 100 1 0 (1/2) [⟨1, 100, 0, 10⟩] (1/2)).1 (1/2)).2.1).map
        ClosedPosition.commission).sum ≤ 10) := by
  norm_num [sellLoop]

/-- C3 (amended): each fragment emitted by the FIFO matching loop carries
`matched_buy_commission = lot.entry_commission × (matched_quantity /
lot.quantity_remaining-at-match-time)` — the divisor is the lot's current
remaining quantity, not the quantity the lot was originally opened with —
together with the sell-side share `sell_commission × (matched_quantity /
sell_quantity)`, and `net_profit = gross_profit - the combined
commission`. -/
theorem sell_fragment_commission_uses_remaining_quantity (sp : ℚ) (t : ℕ)
    (sc sq rem : ℚ) (lot : Lot) (rest : List Lot) (h : 0 < rem) :
    (sellLoop sp t sc sq (lot :: rest) rem).2.1.head? =
      some ⟨min lot.quantity rem, lot.buyPrice, sp, lot.buyTimestamp, t,
        (sp - lot.buyPrice) * min lot.quantity rem,
        lot.commission * (min lot.quantity rem / lot.quantity) +
          sc * (min lot.quantity rem / sq),
        (sp - lot.buyPrice) * min lot.quantity rem -
          (lot.commission * (min lot.quantity rem / lot.quantity) +
            sc * (min lot.quantity rem / sq))⟩ := by
  rcases le_or_lt lot.quantity rem with hle | hlt
  · simp [sellLoop, h, hle, min_eq_left hle]
  · simp [sellLoop, h, not_le.mpr hlt, min_eq_right hlt.le]

/-- Witness for `sell_fragment_commission_uses_remaining_quantity` at the
half-consumed lot of the counterexample: matching 1/2 against a lot with
remaining quantity 1/2 and entry commission 10 charges the full 10. -/
theorem sell_fragment_commission_uses_remaining_quantity_instance :
    (sellLoop 100 2 0 (1/2) [⟨1/2, 100, 0, 10⟩] (1/2)).2.1.head? =
      some ⟨min (1/2) (1/2), 100, 100, 0, 2,
        (100 - 100) * min (1/2) (1/2),
        10 * (min (1/2) (1/2) / (1/2)) + 0 * (min (1/2) (1/2) / (1/2)),
        (100 - 100) * min (1/2) (1/2) -
          (10 * (min (1/2) (1/2) / (1/2)) + 0 * (min (1/2) (1/2) / (1/2)))⟩ :=
  sell_fragment_commission_uses_remaining_quantity 100 2 0 (1/2) (1/2)
    ⟨1/2, 100, 0, 10⟩ [] (by norm_num)

/-- C6 (code bug): the source's annualized-volatility scaling is the
hardcoded constant 365×24×60 = 525600 (one-minute bars per year),
regardless of the actual bar spacing: the hourly equity curve
[10000, 10100, 10000] (index 0, 60, 120 minutes) gets exactly the same
annualized volatility as the same values at one-minute spacing, while the
spacing-derived scaling the claim (and spec §9 item 3) requires gives
bars_per_year = 8760 for hourly bars — a factor 60 lower — so the two
disagree on this input. -/
theorem annual_volatility_ignores_bar_spacing :
    annualVolatilitySq [0, 60, 120] [10000, 10100, 10000] =
      annualVolatilitySq [0, 1, 2] [10000, 10100, 10000] ∧
    annualVolatilitySq [0, 60, 120] [10000, 10100, 10000] =
      sampleVarQ (pctChange [10000, 10100, 10000]) * 525600 ∧
    annualVolatilitySqSpecModel [0, 60, 120] [10000, 10100, 10000] =
      sampleVarQ (pctChange [10000, 10100, 10000]) * 8760 ∧
    annualVolatilitySq [0, 60, 120] [10000, 10100, 10000] ≠
      annualVolatilitySqSpecModel [0, 60, 120] [10000, 10100, 10000] := by
  norm_num [annualVolatilitySq, annualVolatilitySqSpecModel, totalDaysQ,
    sampleVarQ, pctChange, meanQ]

set_option maxHeartbeats 1600000 in
/-- C9 (counterexample): on the fixed bar/signal sequence `c9Bars` with
initial capital 1000, the zero-commission run ends with final capital
2000 while the rate-1/4 run ends with 2250: the skipped sells of the
high-rate run keep its tracked ratio at 1/2, so its second buy goes
all-in before the rally, and final capital strictly increases with the
commission rate. -/
theorem final_capital_not_antitone_in_rate :
    finalCapital 0 1000 c9Bars = 2000 ∧
    finalCapital (1/4) 1000 c9Bars = 2250 ∧
    ¬ (finalCapital (1/4) 1000 c9Bars ≤ finalCapital 0 1000 c9Bars) := by
  have h0 : finalCapital 0 1000 c9Bars = 2000 := by
    norm_num [c9Bars, finalCapital, runBars, stepBar, tradePhase, initState,
      buyTargetRat, additionalCapitalNeeded, sellTargetRat, currentAssets,
      realPositionRat, sellLoop, List.replicate, min_def, max_def,
      abs_of_nonpos, abs_of_nonneg]
  have h4 : finalCapital (1/4) 1000 c9Bars = 2250 := by
    norm_num [c9Bars, finalCapital, runBars, stepBar, tradePhase, initState,
      buyTargetRat, additionalCapitalNeeded, sellTargetRat, currentAssets,
      realPositionRat, sellLoop, List.replicate, min_def, max_def,
      abs_of_nonpos, abs_of_nonneg]
  refine ⟨h0, h4, ?_⟩
  rw [h0, h4]
  norm_num

lemma lotSum_nil : lotSum [] = 0 := rfl

lemma lotSum_cons (l : Lot) (ls : List Lot) :
    lotSum (l :: ls) = l.quantity + lotSum ls := by
  simp [lotSum]

lemma lotSum_append (xs ys : List Lot) :
    lotSum (xs ++ ys) = lotSum xs + lotSum ys := by
  simp [lotSum]

/-- When the demanded sell quantity is nonnegative and at most the total
remaining lot quantity (all lots nonnegative), the FIFO matching loop
exits with zero leftover demand, removes exactly the demanded quantity
from the queue, and keeps all remaining lot quantities nonnegative. -/
lemma sellLoop_consume (sp : ℚ) (t : ℕ) (sc sq : ℚ) (lots : List Lot) (d : ℚ)
    (hl : ∀ l ∈ lots, 0 ≤ l.quantity) (hd : 0 ≤ d) (hsum : d ≤ lotSum lots) :
    (sellLoop sp t sc sq lots d).2.2 = 0 ∧
    lotSum (sellLoop sp t sc sq lots d).1 = lotSum lots - d ∧
    (∀ l ∈ (sellLoop sp t sc sq lots d).1, 0 ≤ l.quantity) := by
  induction lots generalizing d with
  | nil =>
    have hd0 : d = 0 := le_antisymm (by simpa [lotSum] using hsum) hd
    subst hd0
    simp [sellLoop, lotSum]
  | cons lot rest ih =>
    rw [lotSum_cons] at hsum
    by_cases h0 : 0 < d
    · by_cases hq : lot.quantity ≤ d
      · have hq0 : 0 ≤ lot.quantity := hl lot (List.mem_cons_self _ _)
        have hrest := ih (d - lot.quantity)
          (fun l hm => hl l (List.mem_cons_of_mem _ hm))
          (by linarith) (by linarith)
        simp only [sellLoop, if_pos h0, if_pos hq]
        refine ⟨hrest.1, ?_, hrest.2.2⟩
        rw [hrest.2.1, lotSum_cons]
        ring
      · simp only [sellLoop, if_pos h0, if_neg hq]
        refine ⟨by trivial, ?_, ?_⟩
        · rw [lotSum_cons, lotSum_cons]
          ring
        · intro l hm
          rcases List.mem_cons.mp hm with h | h
          · subst h
            have := not_le.mp hq
            simp only []
            linarith
          · exact hl l (List.mem_cons_of_mem _ h)
    · have hd0 : d = 0 := le_antisymm (not_lt.mp h0) hd
      subst hd0
      simp only [sellLoop, if_neg h0]
      exact ⟨by trivial, by ring, hl⟩

/-- `Inv` depends only on the cash, ratio, position and lot fields. -/
lemma inv_mk (cap rat pos : ℚ) (tr : List Trade) (lots : List Lot)
    (cls : List ClosedPosition) (pv psn : List ℚ)
    (h1 : 0 ≤ cap) (h2 : 0 ≤ pos) (h3 : 0 ≤ rat) (h4 : rat ≤ 1)
    (h5 : 0 < cap ∨ 0 < pos) (h6 : ∀ l ∈ lots, 0 ≤ l.quantity)
    (h7 : lotSum lots = pos) :
    Inv ⟨cap, rat, pos, tr, lots, cls, pv, psn⟩ :=
  ⟨h1, h2, h3, h4, h5, h6, h7⟩

/-- Under the run invariant and a positive price, total assets
`cash + position × price` are strictly positive. -/
lemma assets_pos (st : EngineState) (price : ℚ) (h : Inv st) (hp : 0 < price) :
    0 < currentAssets st.currentCapital st.currentPosition price := by
  obtain ⟨hc0, hq0, -, -, hcp, -, -⟩ := h
  rcases hcp with hc | hq
  · have : 0 ≤ st.currentPosition * price := mul_nonneg hq0 hp.le
    unfold currentAssets
    linarith
  · have : 0 < st.currentPosition * price := mul_pos hq hp
    unfold currentAssets
    linarith

/-- Under the run invariant, when the SELL gate passes the demanded sell
quantity is strictly positive and at most the current position. -/
lemma sell_quantity_bounds (st : EngineState) (signal price : ℚ)
    (h : Inv st) (hp : 0 < price)
    (hgate : sellTargetRat st.currentPositionRat signal <
      realPositionRat st.currentCapital st.currentPosition price) :
    0 < st.currentPosition - sellTargetRat st.currentPositionRat signal *
        currentAssets st.currentCapital st.currentPosition price / price ∧
    st.currentPosition - sellTargetRat st.currentPositionRat signal *
        currentAssets st.currentCapital st.currentPosition price / price ≤
      st.currentPosition := by
  have hA : 0 < currentAssets st.currentCapital st.currentPosition price :=
    assets_pos st price h hp
  have hT0 : 0 ≤ sellTargetRat st.currentPositionRat signal := le_max_left _ _
  constructor
  · have h1 : sellTargetRat st.currentPositionRat signal *
        currentAssets st.currentCapital st.currentPosition price <
        st.currentPosition * price := by
      unfold realPositionRat at hgate
      calc sellTargetRat st.currentPositionRat signal *
          currentAssets st.currentCapital st.currentPosition price
          < st.currentPosition * price /
              currentAssets st.currentCapital st.currentPosition price *
              currentAssets st.currentCapital st.currentPosition price :=
            mul_lt_mul_of_pos_right hgate hA
        _ = st.currentPosition * price := by field_simp
    have h2 : sellTargetRat st.currentPositionRat signal *
        currentAssets st.currentCapital st.currentPosition price / price <
        st.currentPosition := by
      rw [div_lt_iff hp]
      exact h1
    linarith
  · have h3 : 0 ≤ sellTargetRat st.currentPositionRat signal *
        currentAssets st.currentCapital st.currentPosition price / price :=
      div_nonneg (mul_nonneg hT0 hA.le) hp.le
    linarith

/-- The run invariant is preserved by the trade phase of one bar. -/
lemma inv_tradePhase (rate signal price : ℚ) (t : ℕ) (st : EngineState)
    (h : Inv st) (hr0 : 0 ≤ rate) (hr1 : rate < 1) (hp : 0 < price) :
    Inv (tradePhase rate st signal price t) := by
  obtain ⟨hc0, hq0, hrat0, hrat1, hcp, hlots, hsum⟩ := h
  by_cases hsig : 0 < signal
  · by_cases hadd : 0 < buyTargetRat st.currentPositionRat signal -
        st.currentPositionRat
    · have hT1 : buyTargetRat st.currentPositionRat signal ≤ 1 :=
        min_le_left _ _
      have hT0 : 0 ≤ buyTargetRat st.currentPositionRat signal :=
        le_min (by norm_num) (by linarith)
      have hratlt : st.currentPositionRat < 1 := by linarith
      have hN0 : 0 ≤ additionalCapitalNeeded st.currentCapital
          st.currentPositionRat
          (buyTargetRat st.currentPositionRat signal - st.currentPositionRat) := by
        unfold additionalCapitalNeeded
        exact div_nonneg (mul_nonneg hadd.le hc0) (by linarith)
      have hnet0 : 0 ≤ additionalCapitalNeeded st.currentCapital
          st.currentPositionRat
          (buyTargetRat st.currentPositionRat signal - st.currentPositionRat) -
          additionalCapitalNeeded st.currentCapital st.currentPositionRat
            (buyTargetRat st.currentPositionRat signal - st.currentPositionRat) *
            rate := by
        nlinarith
      by_cases hle : additionalCapitalNeeded st.currentCapital
          st.currentPositionRat
          (buyTargetRat st.currentPositionRat signal - st.currentPositionRat) ≤
          st.currentCapital
      · rw [tradePhase_buy_exec rate signal price t st _ _ hsig rfl rfl hadd hle]
        have hq' : 0 ≤ (additionalCapitalNeeded st.currentCapital
            st.currentPositionRat
            (buyTargetRat st.currentPositionRat signal - st.currentPositionRat) -
            additionalCapitalNeeded st.currentCapital st.currentPositionRat
              (buyTargetRat st.currentPositionRat signal -
                st.currentPositionRat) * rate) / price :=
          div_nonneg hnet0 hp.le
        apply inv_mk
        · linarith
        · linarith
        · exact hT0
        · exact hT1
        · by_cases hcash : additionalCapitalNeeded st.currentCapital
              st.currentPositionRat
              (buyTargetRat st.currentPositionRat signal -
                st.currentPositionRat) < st.currentCapital
          · exact Or.inl (by linarith)
          · have heq : additionalCapitalNeeded st.currentCapital
                st.currentPositionRat
                (buyTargetRat st.currentPositionRat signal -
                  st.currentPositionRat) = st.currentCapital :=
              le_antisymm hle (not_lt.mp hcash)
            rcases lt_or_eq_of_le hc0 with hcpos | hczero
            · refine Or.inr ?_
              have hNpos : 0 < additionalCapitalNeeded st.currentCapital
                  st.currentPositionRat
                  (buyTargetRat st.currentPositionRat signal -
                    st.currentPositionRat) := by rw [heq]; exact hcpos
              have hstep : 0 < (additionalCapitalNeeded st.currentCapital
                  st.currentPositionRat
                  (buyTargetRat st.currentPositionRat signal -
                    st.currentPositionRat) -
                  additionalCapitalNeeded st.currentCapital
                    st.currentPositionRat
                    (buyTargetRat st.currentPositionRat signal -
                      st.currentPositionRat) * rate) / price := by
                apply div_pos _ hp
                nlinarith
              linarith
            · refine Or.inr ?_
              have hqpos : 0 < st.currentPosition := by
                rcases hcp with hcl | hql
                · rw [← hczero] at hcl
                  exact absurd hcl (lt_irrefl 0)
                · exact hql
              linarith
        · intro l hm
          rcases List.mem_append.mp hm with hmem | hmem
          · exact hlots l hmem
          · rcases List.mem_singleton.mp hmem with rfl
            exact hq'
        · rw [lotSum_append, lotSum_cons, lotSum_nil, hsum]
          ring
      · rw [tradePhase_buy_skip rate signal price t st hsig hadd
          (not_le.mp hle)]
        exact ⟨hc0, hq0, hrat0, hrat1, hcp, hlots, hsum⟩
    · rw [tradePhase_buy_noadd rate signal price t st hsig hadd]
      exact ⟨hc0, hq0, hrat0, hrat1, hcp, hlots, hsum⟩
  · by_cases hneg : signal < 0
    · by_cases hgate : sellTargetRat st.currentPositionRat signal <
          realPositionRat st.currentCapital st.currentPosition price
      · have hbounds := sell_quantity_bounds st signal price
          ⟨hc0, hq0, hrat0, hrat1, hcp, hlots, hsum⟩ hp hgate
        have hT0 : 0 ≤ sellTargetRat st.currentPositionRat signal :=
          le_max_left _ _
        have hT1 : sellTargetRat st.currentPositionRat signal ≤ 1 :=
          max_le (by norm_num) (by linarith [abs_nonneg signal])
        have hSp : 0 < (st.currentPosition -
            sellTargetRat st.currentPositionRat signal *
              currentAssets st.currentCapital st.currentPosition price /
              price) * price := mul_pos hbounds.1 hp
        have hgain : 0 < (st.currentPosition -
            sellTargetRat st.currentPositionRat signal *
              currentAssets st.currentCapital st.currentPosition price /
              price) * price -
            (st.currentPosition -
              sellTargetRat st.currentPositionRat signal *
                currentAssets st.currentCapital st.currentPosition price /
                price) * price * rate := by
          nlinarith [mul_pos hSp (show (0:ℚ) < 1 - rate by linarith)]
        have hconsume := sellLoop_consume price t
          ((st.currentPosition - sellTargetRat st.currentPositionRat signal *
            currentAssets st.currentCapital st.currentPosition price / price) *
            price * rate)
          (st.currentPosition - sellTargetRat st.currentPositionRat signal *
            currentAssets st.currentCapital st.currentPosition price / price)
          st.openPositions
          (st.currentPosition - sellTargetRat st.currentPositionRat signal *
            currentAssets st.currentCapital st.currentPosition price / price)
          hlots hbounds.1.le (by rw [hsum]; exact hbounds.2)
        rw [tradePhase_sell_exec rate signal price t st _ _ hneg rfl rfl hgate]
        apply inv_mk
        · linarith
        · linarith [hbounds.2]
        · exact hT0
        · exact hT1
        · exact Or.inl (by linarith)
        · exact hconsume.2.2
        · rw [hconsume.2.1, hsum]
      · rw [tradePhase_sell_skip rate signal price t st hneg (not_lt.mp hgate)]
        exact ⟨hc0, hq0, hrat0, hrat1, hcp, hlots, hsum⟩
    · rw [tradePhase_nosignal rate signal price t st hsig hneg]
      exact ⟨hc0, hq0, hrat0, hrat1, hcp, hlots, hsum⟩

/-- The run invariant is preserved by a full bar step (the appended
equity/position samples do not enter the invariant). -/
lemma inv_stepBar (rate signal price : ℚ) (t : ℕ) (st : EngineState)
    (h : Inv st) (hr0 : 0 ≤ rate) (hr1 : rate < 1) (hp : 0 < price) :
    Inv (stepBar rate st signal price t) := by
  have h' := inv_tradePhase rate signal price t st h hr0 hr1 hp
  unfold Inv at h' ⊢
  rw [stepBar_currentCapital, stepBar_currentPosition,
    stepBar_currentPositionRat, stepBar_openPositions]
  exact h'

/-- The run invariant holds after any bar/signal sequence with positive
close prices. -/
lemma inv_runBars (rate : ℚ) (ps : List (ℚ × Bar)) (st : EngineState)
    (h : Inv st) (hr0 : 0 ≤ rate) (hr1 : rate < 1)
    (hp : ∀ x ∈ ps, 0 < x.2.close) :
    Inv (runBars rate st ps) := by
  induction ps generalizing st with
  | nil => simpa [runBars] using h
  | cons p rest ih =>
    obtain ⟨s, b⟩ := p
    have hb : 0 < b.close := hp (s, b) (List.mem_cons_self _ _)
    exact ih (stepBar rate st s b.close b.openTime)
      (inv_stepBar rate s b.close b.openTime st h hr0 hr1 hb)
      (fun x hx => hp x (List.mem_cons_of_mem _ hx))

/-- The run invariant holds at the start of a run with positive initial
capital. -/
lemma inv_initState (c : ℚ) (hc : 0 < c) : Inv (initState c) := by
  refine ⟨hc.le, le_refl 0, le_refl 0, by norm_num [initState], Or.inl hc,
    ?_, rfl⟩
  intro l hm
  simp [initState] at hm

/-- C4. Lot-sum invariant: after any bar/signal sequence (positive
capital, rate in [0,1), positive close prices), the total remaining
quantity over the open lots equals the engine's position quantity; and at
any such reachable state, a SELL that passes its gate hands the FIFO
matching loop a demand it fully consumes — the loop exits with zero
leftover, never an empty queue with demand remaining. -/
theorem lot_sum_matches_position (rate c : ℚ) (ps : List (ℚ × Bar))
    (hc : 0 < c) (hr0 : 0 ≤ rate) (hr1 : rate < 1)
    (hp : ∀ x ∈ ps, 0 < x.2.close) :
    lotSum (runBars rate (initState c) ps).openPositions =
      (runBars rate (initState c) ps).currentPosition ∧
    (∀ signal price : ℚ, ∀ t : ℕ, ∀ sellPos : ℚ, signal < 0 → 0 < price →
      sellPos = (runBars rate (initState c) ps).currentPosition -
        sellTargetRat (runBars rate (initState c) ps).currentPositionRat
            signal *
          currentAssets (runBars rate (initState c) ps).currentCapital
            (runBars rate (initState c) ps).currentPosition price / price →
      sellTargetRat (runBars rate (initState c) ps).currentPositionRat
          signal <
        realPositionRat (runBars rate (initState c) ps).currentCapital
          (runBars rate (initState c) ps).currentPosition price →
      (sellLoop price t (sellPos * price * rate) sellPos
        (runBars rate (initState c) ps).openPositions sellPos).2.2 = 0) := by
  have hInv := inv_runBars rate ps (initState c) (inv_initState c hc) hr0 hr1 hp
  refine ⟨hInv.2.2.2.2.2.2, ?_⟩
  intro signal price t sellPos hneg hprice hS hgate
  have hbounds := sell_quantity_bounds (runBars rate (initState c) ps) signal
    price hInv hprice hgate
  subst hS
  exact (sellLoop_consume price t _ _ _ _ hInv.2.2.2.2.2.1 hbounds.1.le
    (by rw [hInv.2.2.2.2.2.2]; exact hbounds.2)).1

/-- Witness for `lot_sum_matches_position`: after one full buy at price
50, the single open lot carries the whole position. -/
theorem lot_sum_matches_position_instance :
    lotSum (runBars (1/100) (initState 1000) [((1:ℚ), (⟨50, 0⟩ : Bar))]).openPositions =
      (runBars (1/100) (initState 1000) [((1:ℚ), (⟨50, 0⟩ : Bar))]).currentPosition :=
  (lot_sum_matches_position (1/100) 1000 [((1:ℚ), (⟨50, 0⟩ : Bar))]
    (by norm_num) (by norm_num) (by norm_num)
    (by intro x hx; rw [List.mem_singleton] at hx; subst hx; norm_num)).1

/-- C5. Cash non-negativity: for every run with positive initial capital,
commission rate in [0,1) and positive close prices, the engine's cash is
nonnegative after every bar (every reachable state being the run of some
prefix). -/
theorem cash_never_negative (rate c : ℚ) (ps : List (ℚ × Bar))
    (hc : 0 < c) (hr0 : 0 ≤ rate) (hr1 : rate < 1)
    (hp : ∀ x ∈ ps, 0 < x.2.close) :
    0 ≤ (runBars rate (initState c) ps).currentCapital :=
  (inv_runBars rate ps (initState c) (inv_initState c hc) hr0 hr1 hp).1

/-- Witness for `cash_never_negative`: the spec §8 scenario's first bar
(full buy of 10000 at price 100 with rate 1/1000). -/
theorem cash_never_negative_instance :
    0 ≤ (runBars (1/1000) (initState 10000)
      [((1:ℚ), (⟨100, 0⟩ : Bar))]).currentCapital :=
  cash_never_negative (1/1000) 10000 [((1:ℚ), (⟨100, 0⟩ : Bar))]
    (by norm_num) (by norm_num) (by norm_num)
    (by intro x hx; rw [List.mem_singleton] at hx; subst hx; norm_num)

/-- C10. SELL-branch division safety: for every run with positive initial
capital, rate in [0,1) and positive close prices, at any reachable state
the processing of a negative signal at a positive close price divides by
nonzero quantities: the total assets `cash + position × price` are
strictly positive (the divisor of `real_position_ratio`) and the price is
nonzero (the divisor of the target position). -/
theorem sell_divisors_never_zero (rate c : ℚ) (ps : List (ℚ × Bar))
    (hc : 0 < c) (hr0 : 0 ≤ rate) (hr1 : rate < 1)
    (hp : ∀ x ∈ ps, 0 < x.2.close) :
    ∀ signal price : ℚ, signal < 0 → 0 < price →
      0 < currentAssets (runBars rate (initState c) ps).currentCapital
          (runBars rate (initState c) ps).currentPosition price ∧
      price ≠ 0 := by
  intro signal price hneg hprice
  exact ⟨assets_pos (runBars rate (initState c) ps) price
    (inv_runBars rate ps (initState c) (inv_initState c hc) hr0 hr1 hp)
    hprice, ne_of_gt hprice⟩

/-- Witness for `sell_divisors_never_zero`: a sell signal right after a
full buy still sees positive total assets. -/
theorem sell_divisors_never_zero_instance :
    0 < currentAssets
        (runBars (1/50) (initState 2000) [((1:ℚ), (⟨40, 0⟩ : Bar))]).currentCapital
        (runBars (1/50) (initState 2000) [((1:ℚ), (⟨40, 0⟩ : Bar))]).currentPosition
        40 ∧
    (40 : ℚ) ≠ 0 :=
  sell_divisors_never_zero (1/50) 2000 [((1:ℚ), (⟨40, 0⟩ : Bar))]
    (by norm_num) (by norm_num) (by norm_num)
    (by intro x hx; rw [List.mem_singleton] at hx; subst hx; norm_num)
    (-(1/2)) 40 (by norm_num) (by norm_num)

lemma coupled_mk (cap1 rat1 pos1 cap2 rat2 pos2 : ℚ)
    (tr1 : List Trade) (lots1 : List Lot) (cls1 : List ClosedPosition)
    (pv1 psn1 : List ℚ)
    (tr2 : List Trade) (lots2 : List Lot) (cls2 : List ClosedPosition)
    (pv2 psn2 : List ℚ)
    (h1 : cap1 = cap2) (h2 : rat1 = rat2) (h3 : pos2 ≤ pos1)
    (h4 : 0 ≤ cap1) (h5 : 0 ≤ pos2) (h6 : 0 ≤ rat1) (h7 : rat1 ≤ 1) :
    Coupled ⟨cap1, rat1, pos1, tr1, lots1, cls1, pv1, psn1⟩
      ⟨cap2, rat2, pos2, tr2, lots2, cls2, pv2, psn2⟩ :=
  ⟨h1, h2, h3, h4, h5, h6, h7⟩

/-- For a bar whose signal is nonnegative, two runs at rates `r1 ≤ r2`
that are coupled stay coupled through the trade phase: the BUY branch
conditions depend only on cash and tracked ratio, which agree, so both
runs take the same branch; the executed buy spends the same cash in both
but buys less quantity at the higher rate. -/
lemma coupled_tradePhase (r1 r2 signal price : ℚ) (t : ℕ)
    (s1 s2 : EngineState) (h : Coupled s1 s2) (hs : 0 ≤ signal)
    (hp : 0 < price) (hr0 : 0 ≤ r1) (hr12 : r1 ≤ r2) (hr2 : r2 < 1) :
    Coupled (tradePhase r1 s1 signal price t)
      (tradePhase r2 s2 signal price t) := by
  obtain ⟨hcap, hrat, hpos, hc0, hp20, hq0, hq1⟩ := h
  have hns : ¬ signal < 0 := not_lt.mpr hs
  by_cases hsig : 0 < signal
  · by_cases hadd : 0 < buyTargetRat s1.currentPositionRat signal -
        s1.currentPositionRat
    · have hadd2 : 0 < buyTargetRat s2.currentPositionRat signal -
          s2.currentPositionRat := by rw [← hrat]; exact hadd
      have hT1 : buyTargetRat s1.currentPositionRat signal ≤ 1 :=
        min_le_left _ _
      have hT0 : 0 ≤ buyTargetRat s1.currentPositionRat signal :=
        le_min (by norm_num) (by linarith)
      have hratlt : s1.currentPositionRat < 1 := by linarith
      have hN0 : 0 ≤ additionalCapitalNeeded s1.currentCapital
          s1.currentPositionRat
          (buyTargetRat s1.currentPositionRat signal - s1.currentPositionRat) := by
        unfold additionalCapitalNeeded
        exact div_nonneg (mul_nonneg hadd.le hc0) (by linarith)
      by_cases hle : additionalCapitalNeeded s1.currentCapital
          s1.currentPositionRat
          (buyTargetRat s1.currentPositionRat signal - s1.currentPositionRat) ≤
          s1.currentCapital
      · have hle2 : additionalCapitalNeeded s2.currentCapital
            s2.currentPositionRat
            (buyTargetRat s2.currentPositionRat signal -
              s2.currentPositionRat) ≤ s2.currentCapital := by
          rw [← hrat, ← hcap]; exact hle
        rw [tradePhase_buy_exec r1 signal price t s1 _ _ hsig rfl rfl hadd hle,
          tradePhase_buy_exec r2 signal price t s2 _ _ hsig rfl rfl hadd2 hle2]
        apply coupled_mk
        · rw [hcap, hrat]
        · rw [hrat]
        · rw [← hrat, ← hcap]
          have hmono : additionalCapitalNeeded s1.currentCapital
              s1.currentPositionRat
              (buyTargetRat s1.currentPositionRat signal -
                s1.currentPositionRat) -
              additionalCapitalNeeded s1.currentCapital s1.currentPositionRat
                (buyTargetRat s1.currentPositionRat signal -
                  s1.currentPositionRat) * r2 ≤
              additionalCapitalNeeded s1.currentCapital s1.currentPositionRat
                (buyTargetRat s1.currentPositionRat signal -
                  s1.currentPositionRat) -
              additionalCapitalNeeded s1.currentCapital s1.currentPositionRat
                (buyTargetRat s1.currentPositionRat signal -
                  s1.currentPositionRat) * r1 := by
            nlinarith [mul_le_mul_of_nonneg_left hr12 hN0]
          exact add_le_add hpos ((div_le_div_right hp).mpr hmono)
        · linarith
        · rw [← hrat, ← hcap]
          refine add_nonneg hp20 (div_nonneg ?_ hp.le)
          nlinarith [mul_le_mul_of_nonneg_left hr2.le hN0]
        · exact hT0
        · exact hT1
      · have hgt2 : s2.currentCapital < additionalCapitalNeeded
            s2.currentCapital s2.currentPositionRat
            (buyTargetRat s2.currentPositionRat signal -
              s2.currentPositionRat) := by
          rw [← hrat, ← hcap]; exact not_le.mp hle
        rw [tradePhase_buy_skip r1 signal price t s1 hsig hadd (not_le.mp hle),
          tradePhase_buy_skip r2 signal price t s2 hsig hadd2 hgt2]
        exact ⟨hcap, hrat, hpos, hc0, hp20, hq0, hq1⟩
    · have hnadd2 : ¬ 0 < buyTargetRat s2.currentPositionRat signal -
          s2.currentPositionRat := by rw [← hrat]; exact hadd
      rw [tradePhase_buy_noadd r1 signal price t s1 hsig hadd,
        tradePhase_buy_noadd r2 signal price t s2 hsig hnadd2]
      exact ⟨hcap, hrat, hpos, hc0, hp20, hq0, hq1⟩
  · rw [tradePhase_nosignal r1 signal price t s1 hsig hns,
      tradePhase_nosignal r2 signal price t s2 hsig hns]
    exact ⟨hcap, hrat, hpos, hc0, hp20, hq0, hq1⟩

/-- The per-bar equity sample of the higher-rate run is at most the
lower-rate one whenever the post-trade states are coupled. -/
lemma lastEquity_stepBar_le (r1 r2 signal price : ℚ) (t : ℕ)
    (s1 s2 : EngineState)
    (h : Coupled (tradePhase r1 s1 signal price t)
      (tradePhase r2 s2 signal price t))
    (hp : 0 < price) :
    lastEquity (stepBar r2 s2 signal price t) ≤
      lastEquity (stepBar r1 s1 signal price t) := by
  obtain ⟨hcap, hrat, hpos, hc0, hp20, hq0, hq1⟩ := h
  unfold lastEquity
  rw [stepBar_portfolioValues, stepBar_portfolioValues,
    List.getLastD_concat, List.getLastD_concat, ← hrat, ← hcap]
  by_cases h0 : 0 < (tradePhase r1 s1 signal price t).currentPositionRat
  · rw [if_pos h0, if_pos h0]
    have := mul_le_mul_of_nonneg_right hpos hp.le
    linarith
  · rw [if_neg h0, if_neg h0]

/-- Coupling and the last-equity comparison propagate through a whole
run over nonnegative signals and positive prices. -/
lemma coupled_run_lastEquity (r1 r2 : ℚ) (hr0 : 0 ≤ r1) (hr12 : r1 ≤ r2)
    (hr2 : r2 < 1) (ps : List (ℚ × Bar)) :
    ∀ s1 s2 : EngineState, Coupled s1 s2 → lastEquity s2 ≤ lastEquity s1 →
    (∀ x ∈ ps, 0 ≤ x.1) → (∀ x ∈ ps, 0 < x.2.close) →
    Coupled (runBars r1 s1 ps) (runBars r2 s2 ps) ∧
    lastEquity (runBars r2 s2 ps) ≤ lastEquity (runBars r1 s1 ps) := by
  induction ps with
  | nil => exact fun s1 s2 h hle _ _ => ⟨h, hle⟩
  | cons p rest ih =>
    intro s1 s2 h hle hs hp
    obtain ⟨sg, b⟩ := p
    have hsg : 0 ≤ sg := hs (sg, b) (List.mem_cons_self _ _)
    have hb : 0 < b.close := hp (sg, b) (List.mem_cons_self _ _)
    have htp := coupled_tradePhase r1 r2 sg b.close b.openTime s1 s2 h hsg hb
      hr0 hr12 hr2
    have hstep : Coupled (stepBar r1 s1 sg b.close b.openTime)
        (stepBar r2 s2 sg b.close b.openTime) := by
      unfold Coupled at htp ⊢
      simp only [stepBar_currentCapital, stepBar_currentPosition,
        stepBar_currentPositionRat]
      exact htp
    have hlast := lastEquity_stepBar_le r1 r2 sg b.close b.openTime s1 s2 htp hb
    exact ih _ _ hstep hlast (fun x hx => hs x (List.mem_cons_of_mem _ hx))
      (fun x hx => hp x (List.mem_cons_of_mem _ hx))

/-- C9 (amended): for a fixed bar sequence with positive close prices, a
signal sequence containing no sell signals, and a nonnegative initial
capital, final capital is non-increasing as the commission rate increases
over [0, 1). -/
theorem final_capital_antitone_in_rate_without_sells
    (r1 r2 c : ℚ) (ps : List (ℚ × Bar))
    (hc : 0 ≤ c) (hr0 : 0 ≤ r1) (hr12 : r1 ≤ r2) (hr2 : r2 < 1)
    (hs : ∀ x ∈ ps, 0 ≤ x.1) (hp : ∀ x ∈ ps, 0 < x.2.close) :
    finalCapital r2 c ps ≤ finalCapital r1 c ps :=
  (coupled_run_lastEquity r1 r2 hr0 hr12 hr2 ps (initState c) (initState c)
    ⟨rfl, rfl, le_refl _, hc, le_refl _, le_refl _, by norm_num [initState]⟩
    (le_refl _) hs hp).2

/-- Witness for `final_capital_antitone_in_rate_without_sells`: one half
buy at price 100, rates 0 versus 1/10. -/
theorem final_capital_antitone_in_rate_without_sells_instance :
    finalCapital (1/10) 1000 [((1:ℚ)/2, (⟨100, 0⟩ : Bar))] ≤
      finalCapital 0 1000 [((1:ℚ)/2, (⟨100, 0⟩ : Bar))] :=
  final_capital_antitone_in_rate_without_sells 0 (1/10) 1000
    [((1:ℚ)/2, (⟨100, 0⟩ : Bar))] (by norm_num) (by norm_num) (by norm_num)
    (by norm_num)
    (by intro x hx; rw [List.mem_singleton] at hx; subst hx; norm_num)
    (by intro x hx; rw [List.mem_singleton] at hx; subst hx; norm_num)

end BacktestCrypto
